import Mathlib

/-!
Shallow embedding of the exchange-rate utility (src/task.py).

The program has three components:
* ExchangeRateFetcher.fetch_exchange_rate — one HTTP GET per date; on
  status 200 it returns the parsed JSON body, otherwise it raises a
  ValueError carrying the status; any exception escaping the try block
  (including that ValueError) is caught and re-raised as ConnectionError.
* ExchangeRateProcessor.process_exchange_rates — reshapes one raw JSON
  payload into a single-date table keyed by currency code.
* ExchangeRateApp.get_exchange_rates — validates days, dispatches one
  fetch per date offset i in [0, days), gathers all results, builds the
  list of processed tables (list comprehension), then prints one warning
  per payload that is falsy or whose exchangeRate field is falsy.

Python values are modelled by PyVal (JSON-shaped data: None, bool,
number as Rat, string, list, dict with string keys in insertion order).
Python exceptions are modelled by PyExn; fallible code returns Except.
Network I/O is modelled by an oracle: the orchestrator takes a function
from day offset i (i = 0 is today, i = days - 1 the oldest date) to the
fetch result for that date, and returns the list of dispatched day
offsets alongside its Except result, so that call counts and call order
are visible.  Warnings are returned as the list of date values the
printed messages reference.
-/

/-- A Python/JSON value as handled by the program. -/
inductive PyVal where
  | none
  | bool (b : Bool)
  | num (q : Rat)
  | str (s : String)
  | list (xs : List PyVal)
  | dict (entries : List (String × PyVal))

/-- Python exceptions that the program can raise.  valueErrorDays is the
ValueError raised for an out-of-range days argument; valueErrorStatus is
the ValueError raised for a non-200 HTTP status (it carries the status
code); osError stands for a transport-level exception raised by the HTTP
client; connectionError wraps the exception caught by the blanket except
clause of the fetcher. -/
inductive TransportErr where
  | dns
  | timeout
  | reset
  | malformedBody

inductive PyExn where
  | valueErrorDays
  | valueErrorStatus (status : Nat)
  | osError (e : TransportErr)
  | connectionError (cause : PyExn)
  | attributeError
  | typeError

/-- Spec error-kind "DataError": the ValueError of line 22 carrying the
HTTP status. -/
def isDataError : PyExn → Bool
  | .valueErrorStatus _ => true
  | _ => false

/-- Spec error-kind "NetworkError": a ConnectionError, which main reports
with the network-error message. -/
def isNetworkError : PyExn → Bool
  | .connectionError _ => true
  | _ => false

/-- Python truthiness for PyVal. -/
def pyTruthy : PyVal → Bool
  | .none => false
  | .bool b => b
  | .num q => if q = 0 then false else true
  | .str s => !s.isEmpty
  | .list xs => !xs.isEmpty
  | .dict es => !es.isEmpty

/-- Lookup in an association list representing a Python dict (string
keys, unique by construction). -/
def lookupStr : List (String × PyVal) → String → Option PyVal
  | [], _ => Option.none
  | (k, v) :: rest, key => if k = key then some v else lookupStr rest key

/-- Python dict assignment d[k] = v: update the existing key in place or
append a new key at the end (insertion order preserved). -/
def dictSet : List (String × PyVal) → String → PyVal → List (String × PyVal)
  | [], k, v => [(k, v)]
  | (k', v') :: rest, k, v =>
      if k' = k then (k', v) :: rest else (k', v') :: dictSet rest k v

/-- Python d.get(key): AttributeError on a non-dict receiver, otherwise
the value or None. -/
def pyGet (v : PyVal) (key : String) : Except PyExn PyVal :=
  match v with
  | .dict es => .ok ((lookupStr es key).getD .none)
  | _ => .error .attributeError

/-- Python d.get(key, default). -/
def pyGetD (v : PyVal) (key : String) (dflt : PyVal) : Except PyExn PyVal :=
  match v with
  | .dict es => .ok ((lookupStr es key).getD dflt)
  | _ => .error .attributeError

/-- Total variant of d.get(key) with None default, used to state pure
facts; only consulted where the receiver is known to be a dict. -/
def dGet (v : PyVal) (key : String) : PyVal :=
  match v with
  | .dict es => (lookupStr es key).getD .none
  | _ => .none

/-- Total variant of d.get(key, default). -/
def dGetD (v : PyVal) (key : String) (dflt : PyVal) : PyVal :=
  match v with
  | .dict es => (lookupStr es key).getD dflt
  | _ => dflt

/-- Python hashability: lists and dicts are unhashable (using one as a
dict key raises TypeError). -/
def hashable : PyVal → Bool
  | .list _ => false
  | .dict _ => false
  | _ => true

/-- Python iteration (for x in v): lists yield their elements, strings
their one-character substrings, dicts their keys; other values raise
TypeError. -/
def iterElems : PyVal → Except PyExn (List PyVal)
  | .list xs => .ok xs
  | .str s => .ok (s.toList.map (fun c => .str (String.mk [c])))
  | .dict es => .ok (es.map (fun p => .str p.1))
  | _ => .error .typeError

/-- ExchangeRateFetcher.fetch_exchange_rate, lines 14-24 of task.py.
The outcome of the underlying HTTP attempt is given: either a response
with a status and a parsed body, or a transport failure.  The try block
returns the body on status 200 and raises ValueError(status) otherwise;
the blanket except clause converts every escaping exception into a
ConnectionError wrapping it. -/
inductive FetchOutcome where
  | response (status : Nat) (body : PyVal)
  | transport (e : TransportErr)

def fetch_exchange_rate (o : FetchOutcome) : Except PyExn PyVal :=
  let attempt : Except PyExn PyVal :=
    match o with
    | .transport e => .error (.osError e)
    | .response status body =>
        if status = 200 then .ok body else .error (.valueErrorStatus status)
  match attempt with
  | .ok v => .ok v
  | .error e => .error (.connectionError e)

/-- The output of the processor: the Python dict {date: {currency:
record}} has exactly one top-level key, so it is modelled as that date
key (an arbitrary PyVal: data.get("date") may be None or any value)
paired with the currency dict in insertion order. -/
structure DailyRateTable where
  dateKey : PyVal
  rates : List (String × PyVal)

/-- The dict comprehension of line 37: every requested currency mapped
to an empty dict, in list order. -/
def initOf (currencies : List String) : List (String × PyVal) :=
  currencies.foldl (fun m c => dictSet m c (.dict [])) []

/-- One loop iteration of lines 39-45 (monadic: rate.get raises
AttributeError on a non-dict entry). -/
def stepM (currencies : List String) (m : List (String × PyVal))
    (rate : PyVal) : Except PyExn (List (String × PyVal)) := do
  let currency ← pyGet rate "currency"
  match currency with
  | .str c =>
      if c ∈ currencies then do
        let sale ← pyGet rate "saleRateNB"
        let purchase ← pyGet rate "purchaseRateNB"
        pure (dictSet m c (.dict [("sale", sale), ("purchase", purchase)]))
      else pure m
  | _ => pure m

/-- ExchangeRateProcessor.process_exchange_rates, lines 31-47 of
task.py.  Order of effects follows the source: data.get("date"),
data.get("exchangeRate", []), building the dict of line 37 (TypeError
if the date value is unhashable), then the loop over the entries. -/
def process_exchange_rates (data : PyVal) (currencies : List String) :
    Except PyExn DailyRateTable := do
  let date ← pyGet data "date"
  let exchange_rates ← pyGetD data "exchangeRate" (.list [])
  if hashable date then do
    let elems ← iterElems exchange_rates
    let rates ← elems.foldlM (stepM currencies) (initOf currencies)
    pure ⟨date, rates⟩
  else .error .typeError

/-- The record built for a matching entry: both keys always present,
values taken by .get (None when the source field is missing). -/
def recordOf (rate : PyVal) : PyVal :=
  .dict [("sale", dGet rate "saleRateNB"), ("purchase", dGet rate "purchaseRateNB")]

/-- Pure mirror of one loop iteration, valid when the entry is a dict. -/
def stepPure (currencies : List String) (m : List (String × PyVal))
    (rate : PyVal) : List (String × PyVal) :=
  match dGet rate "currency" with
  | .str c => if c ∈ currencies then dictSet m c (recordOf rate) else m
  | _ => m

/-- The rate-entry list of a payload as the processor sees it
(exchangeRate field, defaulting to []; non-list values contribute no
entries). -/
def entriesOf (data : PyVal) : List PyVal :=
  match dGetD data "exchangeRate" (.list []) with
  | .list xs => xs
  | _ => []

/-- Pure mirror of the processor, equal to process_exchange_rates
whenever the latter succeeds. -/
def processPure (data : PyVal) (currencies : List String) : DailyRateTable :=
  ⟨dGet data "date", (entriesOf data).foldl (stepPure currencies) (initOf currencies)⟩

/-- A payload on which the processor cannot raise: a dict whose
exchangeRate field (after the [] default) is a list of dict entries and
whose date value is hashable. -/
def isDict : PyVal → Bool
  | .dict _ => true
  | _ => false

def processable (data : PyVal) : Bool :=
  match data with
  | .dict _ =>
      hashable (dGet data "date") &&
        (match dGetD data "exchangeRate" (.list []) with
         | .list xs => xs.all isDict
         | _ => false)
  | _ => false

/-- The filter of line 73: data and data.get("exchangeRate"), as a pure
Boolean (valid when the payload is a dict or falsy). -/
def keepB (d : PyVal) : Bool :=
  pyTruthy d && pyTruthy (dGet d "exchangeRate")

/-- A payload the orchestrator handles without raising after the gather:
either falsy (dropped with a warning before any .get), or a dict that is
processable whenever its exchangeRate field is truthy. -/
def wfPayload (d : PyVal) : Bool :=
  !pyTruthy d || (isDict d && (!keepB d || processable d))

/-- The filter of line 73 as run by the source: short-circuit, raising
AttributeError when a truthy payload is not a dict. -/
def keepCond (d : PyVal) : Except PyExn Bool :=
  if pyTruthy d then do
    let er ← pyGet d "exchangeRate"
    pure (pyTruthy er)
  else pure false

/-- asyncio.gather of line 69: all results in task order; the first
error (in task order) propagates. -/
def gatherE : List (Except PyExn PyVal) → Except PyExn (List PyVal)
  | [] => .ok []
  | r :: rs =>
      match r with
      | .error e => .error e
      | .ok v =>
          match gatherE rs with
          | .error e => .error e
          | .ok vs => .ok (v :: vs)

/-- The list comprehension of lines 71-74: per payload, evaluate the
filter, then process the kept ones, in gather order. -/
def buildResults (raw : List PyVal) (currencies : List String) :
    Except PyExn (List DailyRateTable) :=
  match raw with
  | [] => pure []
  | d :: rest => do
      let k ← keepCond d
      if k then do
        let t ← process_exchange_rates d currencies
        let ts ← buildResults rest currencies
        pure (t :: ts)
      else buildResults rest currencies

/-- The unknown-date marker of lines 78-79 (the source's Ukrainian
literal). -/
def unknownDate : PyVal := .str "Невідома дата"

/-- The warning loop of lines 76-79: one warning per payload failing the
filter, carrying data.get("date", marker) for truthy payloads and the
marker for falsy ones. -/
def buildWarnings : List PyVal → Except PyExn (List PyVal)
  | [] => pure []
  | d :: rest => do
      let k ← keepCond d
      if k then buildWarnings rest
      else do
        let w ← if pyTruthy d then pyGetD d "date" unknownDate else pure unknownDate
        let ws ← buildWarnings rest
        pure (w :: ws)

/-- The date value a dropped payload's warning references (pure mirror). -/
def warnOf (d : PyVal) : PyVal :=
  if pyTruthy d then dGetD d "date" unknownDate else unknownDate

/-- ExchangeRateApp.get_exchange_rates, lines 58-81 of task.py.  fetch
gives the result of the fetcher for day offset i (i = 0 is today); the
first component of the result is the list of day offsets actually
dispatched, the second the returned value: the processed tables plus the
warning dates, or the propagated exception. -/
def get_exchange_rates (fetch : Nat → Except PyExn PyVal) (days : Int)
    (currencies : List String) :
    List Nat × Except PyExn (List DailyRateTable × List PyVal) :=
  if days < 1 ∨ days > 10 then
    ([], .error .valueErrorDays)
  else
    let calls := List.range days.toNat
    (calls, do
      let raw ← gatherE (calls.map fetch)
      let results ← buildResults raw currencies
      let warns ← buildWarnings raw
      pure (results, warns))

/-! ### Basic lemmas about the Except monad and dict operations -/

theorem okBind {α β : Type} (a : α) (f : α → Except PyExn β) :
    (Except.ok a >>= f) = f a := rfl

theorem errBind {α β : Type} (e : PyExn) (f : α → Except PyExn β) :
    (Except.error e >>= f : Except PyExn β) = .error e := rfl

/-- The key list of a modelled dict, in insertion order. -/
def dictKeys (m : List (String × PyVal)) : List String :=
  m.map Prod.fst

theorem dictKeys_dictSet (m : List (String × PyVal)) (k : String) (v : PyVal) :
    dictKeys (dictSet m k v) =
      if k ∈ dictKeys m then dictKeys m else dictKeys m ++ [k] := by
  induction m with
  | nil => simp [dictSet, dictKeys]
  | cons p rest ih =>
      obtain ⟨k', v'⟩ := p
      by_cases hk : k' = k
      · subst hk
        simp [dictSet, dictKeys]
      · have hset : dictSet ((k', v') :: rest) k v = (k', v') :: dictSet rest k v := by
          simp [dictSet, hk]
        rw [hset]
        have h1 : dictKeys ((k', v') :: dictSet rest k v) = k' :: dictKeys (dictSet rest k v) := rfl
        have h2 : dictKeys ((k', v') :: rest) = k' :: dictKeys rest := rfl
        rw [h1, h2, ih]
        by_cases h : k ∈ dictKeys rest
        · rw [if_pos h, if_pos (by simp [List.mem_cons, h])]
        · rw [if_neg h, if_neg (by simp [List.mem_cons, h, Ne.symm hk]), List.cons_append]

theorem lookupStr_dictSet_self (m : List (String × PyVal)) (k : String) (v : PyVal) :
    lookupStr (dictSet m k v) k = some v := by
  induction m with
  | nil => simp [dictSet, lookupStr]
  | cons p rest ih =>
      obtain ⟨k', v'⟩ := p
      by_cases hk : k' = k
      · subst hk; simp [dictSet, lookupStr]
      · simp [dictSet, hk, lookupStr, ih]

theorem lookupStr_dictSet_ne (m : List (String × PyVal)) (k : String) (v : PyVal)
    (key : String) (h : k ≠ key) :
    lookupStr (dictSet m k v) key = lookupStr m key := by
  induction m with
  | nil => simp [dictSet, lookupStr, h]
  | cons p rest ih =>
      obtain ⟨k', v'⟩ := p
      by_cases hk : k' = k
      · subst hk; simp [dictSet, lookupStr, h]
      · simp [dictSet, hk, lookupStr, ih]

theorem nodup_dictKeys_dictSet (m : List (String × PyVal)) (k : String) (v : PyVal)
    (h : (dictKeys m).Nodup) : (dictKeys (dictSet m k v)).Nodup := by
  rw [dictKeys_dictSet]
  by_cases hk : k ∈ dictKeys m
  · simp [hk, h]
  · simp [hk, List.nodup_append, h]

/-! ### Lemmas about the initial table of line 37 -/

theorem initGo_mem (cur : List String) :
    ∀ (m : List (String × PyVal)) (c : String),
      c ∈ dictKeys (List.foldl (fun m c => dictSet m c (.dict [])) m cur) ↔
        c ∈ dictKeys m ∨ c ∈ cur := by
  induction cur with
  | nil => intro m c; simp
  | cons c0 rest ih =>
      intro m c
      rw [List.foldl_cons, ih]
      rw [dictKeys_dictSet]
      by_cases h0 : c0 ∈ dictKeys m
      · simp only [if_pos h0, List.mem_cons]
        constructor
        · rintro (h | h)
          · exact Or.inl h
          · exact Or.inr (Or.inr h)
        · rintro (h | h | h)
          · exact Or.inl h
          · exact Or.inl (h ▸ h0)
          · exact Or.inr h
      · simp only [if_neg h0, List.mem_append, List.mem_singleton, List.mem_cons]
        tauto

theorem initGo_nodup (cur : List String) :
    ∀ (m : List (String × PyVal)), (dictKeys m).Nodup →
      (dictKeys (List.foldl (fun m c => dictSet m c (.dict [])) m cur)).Nodup := by
  induction cur with
  | nil => intro m h; simpa using h
  | cons c0 rest ih =>
      intro m h
      rw [List.foldl_cons]
      exact ih _ (nodup_dictKeys_dictSet m c0 _ h)

theorem initGo_lookup (cur : List String) :
    ∀ (m : List (String × PyVal)) (c : String),
      lookupStr (List.foldl (fun m c => dictSet m c (.dict [])) m cur) c =
        if c ∈ cur then some (.dict []) else lookupStr m c := by
  induction cur with
  | nil => intro m c; simp
  | cons c0 rest ih =>
      intro m c
      rw [List.foldl_cons, ih]
      by_cases hr : c ∈ rest
      · simp [hr]
      · by_cases h0 : c0 = c
        · subst h0
          simp [hr, lookupStr_dictSet_self]
        · simp [hr, Ne.symm h0, lookupStr_dictSet_ne m c0 _ c h0]

theorem initOf_mem (cur : List String) (c : String) :
    c ∈ dictKeys (initOf cur) ↔ c ∈ cur := by
  unfold initOf
  rw [initGo_mem]
  simp [dictKeys]

theorem initOf_nodup (cur : List String) : (dictKeys (initOf cur)).Nodup := by
  unfold initOf
  exact initGo_nodup cur [] (by simp [dictKeys])

theorem initOf_lookup (cur : List String) (c : String) (h : c ∈ cur) :
    lookupStr (initOf cur) c = some (.dict []) := by
  unfold initOf
  rw [initGo_lookup]
  simp [h]

/-! ### Lemmas about the processing loop of lines 39-45 -/

theorem pyGet_dict (es : List (String × PyVal)) (k : String) :
    pyGet (.dict es) k = .ok (dGet (.dict es) k) := rfl

theorem pyGetD_dict (es : List (String × PyVal)) (k : String) (d : PyVal) :
    pyGetD (.dict es) k d = .ok (dGetD (.dict es) k d) := rfl

theorem stepM_dict (cur : List String) (m : List (String × PyVal)) (rate : PyVal)
    (h : isDict rate = true) : stepM cur m rate = .ok (stepPure cur m rate) := by
  cases rate with
  | dict es =>
      rw [stepM, stepPure, pyGet_dict, okBind]
      cases hv : dGet (.dict es) "currency" with
      | str c =>
          by_cases hc : c ∈ cur
          · simp [hc, pyGet_dict, okBind, recordOf, hv]
          · simp [hc]
            rfl
      | none => rfl
      | bool b => rfl
      | num q => rfl
      | list xs => rfl
      | dict d => rfl
  | none => simp [isDict] at h
  | bool b => simp [isDict] at h
  | num q => simp [isDict] at h
  | str s => simp [isDict] at h
  | list xs => simp [isDict] at h

theorem stepM_not_dict (cur : List String) (m : List (String × PyVal)) (rate : PyVal)
    (h : isDict rate = false) : stepM cur m rate = .error .attributeError := by
  cases rate with
  | dict es => simp [isDict] at h
  | none => rfl
  | bool b => rfl
  | num q => rfl
  | str s => rfl
  | list xs => rfl

theorem stepM_ok (cur : List String) (m m' : List (String × PyVal)) (rate : PyVal)
    (h : stepM cur m rate = .ok m') : m' = stepPure cur m rate := by
  cases hd : isDict rate with
  | true =>
      rw [stepM_dict cur m rate hd] at h
      exact (Except.ok.inj h).symm
  | false =>
      rw [stepM_not_dict cur m rate hd] at h
      exact absurd h (by simp)

theorem foldlM_stepM_all_dict (cur : List String) :
    ∀ (xs : List PyVal) (m : List (String × PyVal)), (∀ r ∈ xs, isDict r = true) →
      List.foldlM (stepM cur) m xs = .ok (List.foldl (stepPure cur) m xs) := by
  intro xs
  induction xs with
  | nil => intro m _; rfl
  | cons x rest ih =>
      intro m h
      rw [List.foldlM_cons, stepM_dict cur m x (h x (by simp)), okBind,
        List.foldl_cons]
      exact ih _ (fun r hr => h r (by simp [hr]))

theorem foldlM_stepM_ok (cur : List String) :
    ∀ (xs : List PyVal) (m r : List (String × PyVal)),
      List.foldlM (stepM cur) m xs = .ok r → r = List.foldl (stepPure cur) m xs := by
  intro xs
  induction xs with
  | nil =>
      intro m r h
      exact (Except.ok.inj h).symm
  | cons x rest ih =>
      intro m r h
      rw [List.foldlM_cons] at h
      cases hs : stepM cur m x with
      | error e => rw [hs, errBind] at h; exact absurd h (by simp)
      | ok m' =>
          rw [hs, okBind] at h
          rw [List.foldl_cons, ← stepM_ok cur m m' x hs]
          exact ih m' r h

/-! ### The processor succeeds exactly as its pure mirror describes -/

theorem process_wf (data : PyVal) (cur : List String)
    (h : processable data = true) :
    process_exchange_rates data cur = .ok (processPure data cur) := by
  cases data with
  | dict es =>
      rw [processable] at h
      rw [Bool.and_eq_true] at h
      obtain ⟨h1, h2⟩ := h
      cases her : dGetD (.dict es) "exchangeRate" (.list []) with
      | list xs =>
          rw [her] at h2
          rw [process_exchange_rates, pyGet_dict, okBind, pyGetD_dict, okBind,
            her, if_pos h1]
          have hiter : iterElems (.list xs) = .ok xs := rfl
          rw [hiter, okBind,
            foldlM_stepM_all_dict cur xs (initOf cur) (by
              intro r hr
              exact List.all_eq_true.mp h2 r hr), okBind]
          rw [processPure, entriesOf, her]
          rfl
      | none => rw [her] at h2; exact absurd h2 (by simp)
      | bool b => rw [her] at h2; exact absurd h2 (by simp)
      | num q => rw [her] at h2; exact absurd h2 (by simp)
      | str s => rw [her] at h2; exact absurd h2 (by simp)
      | dict d => rw [her] at h2; exact absurd h2 (by simp)
  | none => simp [processable] at h
  | bool b => simp [processable] at h
  | num q => simp [processable] at h
  | str s => simp [processable] at h
  | list xs => simp [processable] at h

/-! ### Inversion: whenever the processor succeeds it returns the pure mirror -/

theorem foldlM_stepM_str_head (cur : List String) (s : String) (rest : List PyVal)
    (m : List (String × PyVal)) :
    List.foldlM (stepM cur) m (PyVal.str s :: rest) = .error .attributeError := by
  rw [List.foldlM_cons, stepM_not_dict cur m (.str s) rfl, errBind]

theorem process_ok_inv (data : PyVal) (cur : List String) (t : DailyRateTable)
    (h : process_exchange_rates data cur = .ok t) : t = processPure data cur := by
  cases data with
  | dict es =>
      rw [process_exchange_rates, pyGet_dict, okBind, pyGetD_dict, okBind] at h
      cases hh : hashable (dGet (.dict es) "date") with
      | false => rw [hh] at h; exact absurd h (by simp)
      | true =>
          rw [hh] at h
          simp only [if_true] at h
          cases her : dGetD (.dict es) "exchangeRate" (.list []) with
          | list xs =>
              rw [her] at h
              have hiter : iterElems (.list xs) = .ok xs := rfl
              rw [hiter, okBind] at h
              cases hf : List.foldlM (stepM cur) (initOf cur) xs with
              | error e => rw [hf, errBind] at h; exact absurd h (by simp)
              | ok r =>
                  rw [hf, okBind] at h
                  have hr := foldlM_stepM_ok cur xs (initOf cur) r hf
                  have ht : t = ⟨dGet (.dict es) "date", r⟩ := (Except.ok.inj h).symm
                  rw [ht, hr, processPure, entriesOf, her]
          | str s =>
              rw [her] at h
              cases s with
              | mk l =>
                  cases l with
                  | nil =>
                      have hiter : iterElems (.str ⟨[]⟩) = .ok [] := rfl
                      rw [hiter, okBind] at h
                      have hf : List.foldlM (stepM cur) (initOf cur) ([] : List PyVal) =
                          .ok (initOf cur) := rfl
                      rw [hf, okBind] at h
                      have ht : t = ⟨dGet (.dict es) "date", initOf cur⟩ :=
                        (Except.ok.inj h).symm
                      rw [ht, processPure, entriesOf, her]
                      rfl
                  | cons c l2 =>
                      have hiter : iterElems (.str ⟨c :: l2⟩) =
                          .ok (.str ⟨[c]⟩ :: l2.map (fun ch => .str ⟨[ch]⟩)) := by
                        simp [iterElems, String.toList]
                      rw [hiter, okBind, foldlM_stepM_str_head, errBind] at h
                      exact absurd h (by simp)
          | dict d =>
              rw [her] at h
              cases d with
              | nil =>
                  have hiter : iterElems (.dict []) = .ok [] := rfl
                  rw [hiter, okBind] at h
                  have hf : List.foldlM (stepM cur) (initOf cur) ([] : List PyVal) =
                      .ok (initOf cur) := rfl
                  rw [hf, okBind] at h
                  have ht : t = ⟨dGet (.dict es) "date", initOf cur⟩ :=
                    (Except.ok.inj h).symm
                  rw [ht, processPure, entriesOf, her]
                  rfl
              | cons p d2 =>
                  have hiter : iterElems (.dict (p :: d2)) =
                      .ok (.str p.1 :: d2.map (fun q => .str q.1)) := rfl
                  rw [hiter, okBind, foldlM_stepM_str_head, errBind] at h
                  exact absurd h (by simp)
          | none =>
              rw [her] at h
              have hiter : iterElems PyVal.none = .error .typeError := rfl
              rw [hiter, errBind] at h
              exact absurd h (by simp)
          | bool b =>
              rw [her] at h
              have hiter : iterElems (.bool b) = .error .typeError := rfl
              rw [hiter, errBind] at h
              exact absurd h (by simp)
          | num q =>
              rw [her] at h
              have hiter : iterElems (.num q) = .error .typeError := rfl
              rw [hiter, errBind] at h
              exact absurd h (by simp)
  | none => exact absurd h (by simp [process_exchange_rates, pyGet, errBind])
  | bool b => exact absurd h (by simp [process_exchange_rates, pyGet, errBind])
  | num q => exact absurd h (by simp [process_exchange_rates, pyGet, errBind])
  | str s => exact absurd h (by simp [process_exchange_rates, pyGet, errBind])
  | list xs => exact absurd h (by simp [process_exchange_rates, pyGet, errBind])

/-! ### Key-set and lookup facts about the pure mirror -/

theorem stepPure_keys (cur : List String) (m : List (String × PyVal)) (rate : PyVal)
    (h : ∀ c ∈ cur, c ∈ dictKeys m) :
    dictKeys (stepPure cur m rate) = dictKeys m := by
  rw [stepPure]
  cases dGet rate "currency" with
  | str c =>
      by_cases hc : c ∈ cur
      · simp only [hc, if_true]
        rw [dictKeys_dictSet, if_pos (h c hc)]
      · simp [hc]
  | none => rfl
  | bool b => rfl
  | num q => rfl
  | list xs => rfl
  | dict d => rfl

theorem foldl_stepPure_keys (cur : List String) :
    ∀ (xs : List PyVal) (m : List (String × PyVal)), (∀ c ∈ cur, c ∈ dictKeys m) →
      dictKeys (List.foldl (stepPure cur) m xs) = dictKeys m := by
  intro xs
  induction xs with
  | nil => intro m _; rfl
  | cons x rest ih =>
      intro m h
      rw [List.foldl_cons, ih _ (fun c hc => by rw [stepPure_keys cur m x h]; exact h c hc),
        stepPure_keys cur m x h]

theorem processPure_keys_mem (data : PyVal) (cur : List String) (c : String) :
    c ∈ dictKeys (processPure data cur).rates ↔ c ∈ cur := by
  rw [processPure]
  show c ∈ dictKeys (List.foldl (stepPure cur) (initOf cur) (entriesOf data)) ↔ c ∈ cur
  rw [foldl_stepPure_keys cur (entriesOf data) (initOf cur)
    (fun c hc => (initOf_mem cur c).mpr hc)]
  exact initOf_mem cur c

theorem processPure_keys_nodup (data : PyVal) (cur : List String) :
    (dictKeys (processPure data cur).rates).Nodup := by
  rw [processPure]
  show (dictKeys (List.foldl (stepPure cur) (initOf cur) (entriesOf data))).Nodup
  rw [foldl_stepPure_keys cur (entriesOf data) (initOf cur)
    (fun c hc => (initOf_mem cur c).mpr hc)]
  exact initOf_nodup cur

theorem foldl_stepPure_untouched (cur : List String) (c : String) :
    ∀ (xs : List PyVal) (m : List (String × PyVal)),
      (∀ e ∈ xs, dGet e "currency" ≠ .str c) →
      lookupStr (List.foldl (stepPure cur) m xs) c = lookupStr m c := by
  intro xs
  induction xs with
  | nil => intro m _; rfl
  | cons x rest ih =>
      intro m h
      rw [List.foldl_cons, ih _ (fun e he => h e (by simp [he]))]
      rw [stepPure]
      cases hv : dGet x "currency" with
      | str c2 =>
          have hne : c2 ≠ c := by
            intro hcc
            exact h x (by simp) (by rw [hv, hcc])
          by_cases hc2 : c2 ∈ cur
          · simp only [hc2, if_true]
            exact lookupStr_dictSet_ne m c2 _ c hne
          · simp [hc2]
      | none => rfl
      | bool b => rfl
      | num q => rfl
      | list l => rfl
      | dict d => rfl

theorem processPure_untouched (data : PyVal) (cur : List String) (c : String)
    (hc : c ∈ cur) (h : ∀ e ∈ entriesOf data, dGet e "currency" ≠ .str c) :
    lookupStr (processPure data cur).rates c = some (.dict []) := by
  rw [processPure]
  show lookupStr (List.foldl (stepPure cur) (initOf cur) (entriesOf data)) c = some (.dict [])
  rw [foldl_stepPure_untouched cur c (entriesOf data) (initOf cur) h]
  exact initOf_lookup cur c hc

theorem foldl_stepPure_last_match (cur : List String) (c : String) (e : PyVal)
    (he : dGet e "currency" = .str c) (hc : c ∈ cur) :
    ∀ (post : List PyVal) (m : List (String × PyVal)),
      (∀ x ∈ post, dGet x "currency" ≠ .str c) →
      lookupStr (List.foldl (stepPure cur) m (e :: post)) c = some (recordOf e) := by
  intro post m hpost
  rw [List.foldl_cons, foldl_stepPure_untouched cur c post _ hpost]
  rw [stepPure, he]
  simp only [hc, if_true]
  exact lookupStr_dictSet_self m c (recordOf e)

/-! ### Orchestrator lemmas -/

theorem pyTruthy_isDict (d : PyVal) (h : pyTruthy d = true) (hd : isDict d = true) :
    ∃ es, d = .dict es := by
  cases d with
  | dict es => exact ⟨es, rfl⟩
  | none => simp [isDict] at hd
  | bool b => simp [isDict] at hd
  | num q => simp [isDict] at hd
  | str s => simp [isDict] at hd
  | list xs => simp [isDict] at hd

theorem pureEq {α : Type} (a : α) : (pure a : Except PyExn α) = .ok a := rfl

theorem keepCond_wf (d : PyVal) (h : wfPayload d = true) :
    keepCond d = .ok (keepB d) := by
  rw [keepCond, keepB]
  cases ht : pyTruthy d with
  | false =>
      simp [ht]
      rfl
  | true =>
      rw [wfPayload, ht] at h
      simp only [Bool.not_true, Bool.false_or, Bool.and_eq_true] at h
      obtain ⟨es, rfl⟩ := pyTruthy_isDict d ht h.1
      simp [pyGet_dict, okBind]

theorem wf_keep_processable (d : PyVal) (h : wfPayload d = true)
    (hk : keepB d = true) : processable d = true := by
  have ht : pyTruthy d = true := by
    rw [keepB, Bool.and_eq_true] at hk
    exact hk.1
  rw [wfPayload, ht] at h
  simp only [Bool.not_true, Bool.false_or, Bool.and_eq_true] at h
  rcases Bool.or_eq_true _ _ |>.mp h.2 with h2 | h2
  · rw [hk] at h2; simp at h2
  · exact h2

theorem wf_truthy_dict (d : PyVal) (h : wfPayload d = true)
    (ht : pyTruthy d = true) : ∃ es, d = .dict es := by
  rw [wfPayload, ht] at h
  simp only [Bool.not_true, Bool.false_or, Bool.and_eq_true] at h
  exact pyTruthy_isDict d ht h.1

theorem gatherE_map (fetch : Nat → Except PyExn PyVal) (vof : Nat → PyVal) :
    ∀ (l : List Nat), (∀ i ∈ l, fetch i = .ok (vof i)) →
      gatherE (l.map fetch) = .ok (l.map vof) := by
  intro l
  induction l with
  | nil => intro _; rfl
  | cons i rest ih =>
      intro h
      have h0 : fetch i = .ok (vof i) := h i (by simp)
      have hrest := ih (fun j hj => h j (by simp [hj]))
      rw [List.map_cons, List.map_cons]
      simp [gatherE, h0, hrest]

theorem buildResults_wf (cur : List String) :
    ∀ (raw : List PyVal), (∀ d ∈ raw, wfPayload d = true) →
      buildResults raw cur =
        .ok ((raw.filter keepB).map (fun d => processPure d cur)) := by
  intro raw
  induction raw with
  | nil => intro _; rfl
  | cons d rest ih =>
      intro h
      have hw : wfPayload d = true := h d (by simp)
      have hrest := ih (fun x hx => h x (by simp [hx]))
      rw [buildResults, keepCond_wf d hw, okBind]
      cases hk : keepB d with
      | true =>
          rw [process_wf d cur (wf_keep_processable d hw hk),
            List.filter_cons_of_pos hk]
          simp [okBind, hrest, pureEq]
      | false =>
          rw [List.filter_cons_of_neg (by simp [hk])]
          simp [hrest]

theorem buildWarnings_wf :
    ∀ (raw : List PyVal), (∀ d ∈ raw, wfPayload d = true) →
      buildWarnings raw = .ok ((raw.filter (fun d => !keepB d)).map warnOf) := by
  intro raw
  induction raw with
  | nil => intro _; rfl
  | cons d rest ih =>
      intro h
      have hw : wfPayload d = true := h d (by simp)
      have hrest := ih (fun x hx => h x (by simp [hx]))
      rw [buildWarnings, keepCond_wf d hw, okBind]
      cases hk : keepB d with
      | true =>
          rw [List.filter_cons_of_neg (by simp [hk])]
          simp [hrest]
      | false =>
          rw [List.filter_cons_of_pos (by simp [hk]), List.map_cons]
          cases ht : pyTruthy d with
          | true =>
              obtain ⟨es, rfl⟩ := wf_truthy_dict d hw ht
              have hwarn : warnOf (.dict es) = dGetD (.dict es) "date" unknownDate := by
                rw [warnOf, if_pos ht]
              simp [ht, pyGetD_dict, okBind, hrest, pureEq, hwarn]
          | false =>
              have hwarn : warnOf d = unknownDate := by
                rw [warnOf, if_neg (by simp [ht])]
              simp [ht, okBind, hrest, pureEq, hwarn]

theorem get_exchange_rates_ok (fetch : Nat → Except PyExn PyVal) (days : Int)
    (cur : List String) (vof : Nat → PyVal)
    (h1 : 1 ≤ days) (h2 : days ≤ 10)
    (hf : ∀ i < days.toNat, fetch i = .ok (vof i))
    (hw : ∀ i < days.toNat, wfPayload (vof i) = true) :
    get_exchange_rates fetch days cur =
      (List.range days.toNat,
       .ok ((((List.range days.toNat).map vof).filter keepB).map
              (fun d => processPure d cur),
            (((List.range days.toNat).map vof).filter (fun d => !keepB d)).map warnOf)) := by
  have hcond : ¬(days < 1 ∨ days > 10) := by omega
  rw [get_exchange_rates, if_neg hcond]
  dsimp only
  have hwraw : ∀ d ∈ (List.range days.toNat).map vof, wfPayload d = true := by
    intro d hd
    obtain ⟨i, hi, rfl⟩ := List.mem_map.mp hd
    exact hw i (List.mem_range.mp hi)
  rw [gatherE_map fetch vof (List.range days.toNat)
      (fun i hi => hf i (List.mem_range.mp hi)), okBind,
    buildResults_wf cur _ hwraw, okBind, buildWarnings_wf _ hwraw, okBind, pureEq]

/-! ### Concrete payloads used by the claims -/

/-- The round-trip payload of the spec: one USD entry with both rates
(38.5 and 38.0) and one XYZ entry. -/
def samplePayload : PyVal :=
  .dict [("date", .str "01.01.2024"),
         ("exchangeRate", .list
           [.dict [("currency", .str "USD"), ("saleRateNB", .num (77/2)),
                   ("purchaseRateNB", .num 38)],
            .dict [("currency", .str "XYZ"), ("saleRateNB", .num 1),
                   ("purchaseRateNB", .num 1)]])]

/-- A USD rate entry with no saleRateNB field. -/
def noSaleEntry : PyVal :=
  .dict [("currency", .str "USD"), ("purchaseRateNB", .num 38)]

/-- A payload whose single USD entry lacks the saleRateNB field. -/
def noSalePayload : PyVal :=
  .dict [("date", .str "01.01.2024"), ("exchangeRate", .list [noSaleEntry])]

/-- A well-formed payload whose exchangeRate list is empty. -/
def emptyRatesPayload : PyVal :=
  .dict [("date", .str "01.01.2024"), ("exchangeRate", .list [])]

/-! ### Claims -/

/-- C1: code behaviour at the failing input.  The spec claims a non-200
status fails the batch with a DataError carrying the status, distinct
from the NetworkError used for transport failures.  In the code the
ValueError of line 22 is caught by the blanket except of line 23 and
re-raised as ConnectionError, so a 503 response surfaces as a
network-kind error (and main reports it with the network-error message);
the batch does fail with no partial result, but with the wrong kind. -/
theorem c1_non200_wrapped_as_connection_error :
    fetch_exchange_rate (.response 503 (.dict [])) =
      .error (.connectionError (.valueErrorStatus 503)) ∧
    isNetworkError (.connectionError (.valueErrorStatus 503)) = true ∧
    isDataError (.connectionError (.valueErrorStatus 503)) = false ∧
    get_exchange_rates
        (fun i => fetch_exchange_rate
          (if i = 1 then .response 503 (.dict []) else .response 200 samplePayload))
        3 ["USD"] =
      ([0, 1, 2], .error (.connectionError (.valueErrorStatus 503))) :=
  ⟨rfl, rfl, rfl, rfl⟩

/-- C2 counterexample: for a requested-currency entry with no saleRateNB
field, the output record contains the key "sale" mapped to None — the
field is present with a null value, not absent as the claim states. -/
theorem c2_missing_field_present_as_none :
    process_exchange_rates noSalePayload ["USD"] =
      .ok ⟨.str "01.01.2024",
           [("USD", .dict [("sale", PyVal.none), ("purchase", .num 38)])]⟩ := rfl

/-- C2 (amended): for the last payload rate entry with a requested
currency code, the output record is the dict with keys "sale" and
"purchase" always present, holding the entry's saleRateNB and
purchaseRateNB values looked up with a None default (so a missing source
field yields a null value, never an absent key). -/
theorem c2_amended_verbatim_copy_with_none_default
    (data : PyVal) (cur : List String) (c : String)
    (pre post : List PyVal) (e : PyVal)
    (hp : processable data = true)
    (hsplit : entriesOf data = pre ++ e :: post)
    (hcur : dGet e "currency" = .str c)
    (hc : c ∈ cur)
    (hlast : ∀ x ∈ post, dGet x "currency" ≠ .str c) :
    ∃ t, process_exchange_rates data cur = .ok t ∧
      lookupStr t.rates c =
        some (.dict [("sale", dGet e "saleRateNB"),
                     ("purchase", dGet e "purchaseRateNB")]) := by
  refine ⟨processPure data cur, process_wf data cur hp, ?_⟩
  rw [processPure]
  show lookupStr (List.foldl (stepPure cur) (initOf cur) (entriesOf data)) c = _
  rw [hsplit, List.foldl_append,
    foldl_stepPure_last_match cur c e hcur hc post _ hlast, recordOf]

/-- C2 witness: the amended theorem applied to the concrete payload
whose USD entry lacks saleRateNB. -/
theorem c2_amended_witness :
    ∃ t, process_exchange_rates noSalePayload ["USD"] = .ok t ∧
      lookupStr t.rates "USD" =
        some (.dict [("sale", dGet noSaleEntry "saleRateNB"),
                     ("purchase", dGet noSaleEntry "purchaseRateNB")]) :=
  c2_amended_verbatim_copy_with_none_default noSalePayload ["USD"] "USD" [] [] noSaleEntry
    rfl rfl rfl (by simp) (by intro x hx; simp at hx)

/-- C3: for any days outside [1, 10] the orchestrator raises the
validation ValueError of line 61 and dispatches zero fetch calls (the
call trace is empty: the check precedes the session and the loop). -/
theorem c3_invalid_days_validation_error_no_fetch
    (fetch : Nat → Except PyExn PyVal) (days : Int) (currencies : List String)
    (h : days < 1 ∨ days > 10) :
    get_exchange_rates fetch days currencies = ([], .error .valueErrorDays) := by
  rw [get_exchange_rates, if_pos h]

/-- C3 witness: days = 0 and days = 11. -/
theorem c3_witness :
    get_exchange_rates (fun _ => .ok samplePayload) 0 ["USD"] =
      ([], .error .valueErrorDays) ∧
    get_exchange_rates (fun _ => .ok samplePayload) 11 ["EUR", "USD"] =
      ([], .error .valueErrorDays) :=
  ⟨c3_invalid_days_validation_error_no_fetch _ 0 _ (by decide),
   c3_invalid_days_validation_error_no_fetch _ 11 _ (by decide)⟩

/-- C5 counterexample: a payload whose exchangeRate list contains a
non-dict entry makes the processor raise AttributeError (rate.get on an
int), so the processor does have a failure path. -/
theorem c5_malformed_entry_raises :
    process_exchange_rates
      (.dict [("date", .str "01.01.2024"), ("exchangeRate", .list [.num 5])])
      ["USD"] = .error .attributeError := rfl

/-- C5 (amended): the processor never raises on payloads that are dicts
whose exchangeRate field (after the [] default) is a list of dict
entries and whose date value is hashable; within that shape, missing
fields degrade to None values.  It is not failure-free in general: a
rate entry that is not a record makes it raise AttributeError, as the
concrete evaluation above shows. -/
theorem c5_amended_no_failure_on_wellformed (data : PyVal) (cur : List String)
    (h : processable data = true) :
    ∃ t, process_exchange_rates data cur = .ok t :=
  ⟨processPure data cur, process_wf data cur h⟩

/-- C5 witness: the amended theorem at the round-trip payload. -/
theorem c5_amended_witness :
    ∃ t, process_exchange_rates samplePayload ["USD"] = .ok t :=
  c5_amended_no_failure_on_wellformed samplePayload ["USD"] rfl

/-- C8: the round-trip scenario: the spec payload with requested
currencies USD and EUR produces exactly the table with date key
01.01.2024, USD mapped to sale 38.5 / purchase 38.0, EUR mapped to the
empty record, and XYZ excluded. -/
theorem c8_round_trip_concrete :
    process_exchange_rates samplePayload ["USD", "EUR"] =
      .ok ⟨.str "01.01.2024",
           [("USD", .dict [("sale", .num (77/2)), ("purchase", .num 38)]),
            ("EUR", .dict [])]⟩ := rfl

/-- C4: whenever the processor returns a table, the key list of its
currency mapping has no duplicates and contains exactly the requested
currency codes; and a requested code matched by no rate entry of the
payload is mapped to the empty record, never omitted. -/
theorem c4_keys_exactly_requested (data : PyVal) (cur : List String)
    (t : DailyRateTable) (h : process_exchange_rates data cur = .ok t) :
    ((dictKeys t.rates).Nodup ∧ (∀ c, c ∈ dictKeys t.rates ↔ c ∈ cur)) ∧
    (∀ c ∈ cur, (∀ e ∈ entriesOf data, dGet e "currency" ≠ .str c) →
      lookupStr t.rates c = some (.dict [])) := by
  have ht := process_ok_inv data cur t h
  subst ht
  exact ⟨⟨processPure_keys_nodup data cur, fun c => processPure_keys_mem data cur c⟩,
    fun c hc hn => processPure_untouched data cur c hc hn⟩

/-- C4 witness: the round-trip payload with requested set [USD, EUR]
(EUR has no entry, XYZ is present upstream but not requested). -/
theorem c4_witness :
    ((dictKeys (processPure samplePayload ["USD", "EUR"]).rates).Nodup ∧
      (∀ c, c ∈ dictKeys (processPure samplePayload ["USD", "EUR"]).rates ↔
        c ∈ ["USD", "EUR"])) ∧
    (∀ c ∈ ["USD", "EUR"],
      (∀ e ∈ entriesOf samplePayload, dGet e "currency" ≠ .str c) →
      lookupStr (processPure samplePayload ["USD", "EUR"]).rates c =
        some (.dict [])) :=
  c4_keys_exactly_requested samplePayload ["USD", "EUR"] _ rfl

/-- C9: a processable payload record with no date field at all is
processed without failure into a table whose top-level key is the None
value, still mapping exactly the requested currencies. -/
theorem c9_missing_date_none_key (es : List (String × PyVal)) (cur : List String)
    (hd : lookupStr es "date" = Option.none)
    (hp : processable (.dict es) = true) :
    ∃ t, process_exchange_rates (.dict es) cur = .ok t ∧
      t.dateKey = PyVal.none ∧
      (∀ c, c ∈ dictKeys t.rates ↔ c ∈ cur) := by
  refine ⟨processPure (.dict es) cur, process_wf _ cur hp, ?_,
    fun c => processPure_keys_mem _ cur c⟩
  show dGet (.dict es) "date" = PyVal.none
  simp [dGet, hd]

/-- C9 witness: a payload holding only an exchangeRate list. -/
theorem c9_witness :
    ∃ t, process_exchange_rates
        (.dict [("exchangeRate", .list
          [.dict [("currency", .str "USD"), ("saleRateNB", .num 40),
                  ("purchaseRateNB", .num 39)]])]) ["USD", "EUR"] = .ok t ∧
      t.dateKey = PyVal.none ∧
      (∀ c, c ∈ dictKeys t.rates ↔ c ∈ ["USD", "EUR"]) :=
  c9_missing_date_none_key
    [("exchangeRate", .list
      [.dict [("currency", .str "USD"), ("saleRateNB", .num 40),
              ("purchaseRateNB", .num 39)]])] ["USD", "EUR"] rfl rfl

/-- C10: when the entry list contains two entries with the same
requested currency code and no later match, the output record for that
code is the one built from the later entry (assignment overwrites). -/
theorem c10_last_entry_wins (data : PyVal) (cur : List String) (c : String)
    (pre mid post : List PyVal) (e1 e2 : PyVal)
    (hp : processable data = true)
    (hsplit : entriesOf data = pre ++ e1 :: mid ++ e2 :: post)
    (_he1 : dGet e1 "currency" = .str c)
    (he2 : dGet e2 "currency" = .str c)
    (hc : c ∈ cur)
    (hpost : ∀ x ∈ post, dGet x "currency" ≠ .str c) :
    ∃ t, process_exchange_rates data cur = .ok t ∧
      lookupStr t.rates c = some (recordOf e2) := by
  refine ⟨processPure data cur, process_wf data cur hp, ?_⟩
  rw [processPure]
  show lookupStr (List.foldl (stepPure cur) (initOf cur) (entriesOf data)) c = _
  have hre : entriesOf data = (pre ++ e1 :: mid) ++ e2 :: post := by
    rw [hsplit]
  rw [hre, List.foldl_append]
  exact foldl_stepPure_last_match cur c e2 he2 hc post _ hpost

/-- C10 witness: two USD entries; the output equals the record of the
second. -/
theorem c10_witness :
    ∃ t, process_exchange_rates
        (.dict [("date", .str "02.01.2024"),
                ("exchangeRate", .list
                  [.dict [("currency", .str "USD"), ("saleRateNB", .num 10)],
                   .dict [("currency", .str "USD"), ("saleRateNB", .num 20)]])])
        ["USD"] = .ok t ∧
      lookupStr t.rates "USD" =
        some (recordOf (.dict [("currency", .str "USD"), ("saleRateNB", .num 20)])) :=
  c10_last_entry_wins
    (.dict [("date", .str "02.01.2024"),
            ("exchangeRate", .list
              [.dict [("currency", .str "USD"), ("saleRateNB", .num 10)],
               .dict [("currency", .str "USD"), ("saleRateNB", .num 20)]])])
    ["USD"] "USD" [] [] []
    (.dict [("currency", .str "USD"), ("saleRateNB", .num 10)])
    (.dict [("currency", .str "USD"), ("saleRateNB", .num 20)])
    rfl rfl rfl rfl (by simp) (by intro x hx; simp at hx)

/-- C7: for valid days the orchestrator dispatches exactly days fetch
calls, with day offsets 0 (today) through days - 1 (oldest) in that
order, independently of the fetch outcomes (so before any processing);
and when every fetch returns a well-shaped payload the result lists the
processed tables in dispatch order restricted to payloads with rate
data, with one warning per dropped payload. -/
theorem c7_dispatch_count_and_order (fetch : Nat → Except PyExn PyVal)
    (days : Int) (currencies : List String) (vof : Nat → PyVal)
    (h1 : 1 ≤ days) (h2 : days ≤ 10)
    (hf : ∀ i < days.toNat, fetch i = .ok (vof i))
    (hw : ∀ i < days.toNat, wfPayload (vof i) = true) :
    (∀ g : Nat → Except PyExn PyVal,
        (get_exchange_rates g days currencies).1 = List.range days.toNat) ∧
    (get_exchange_rates fetch days currencies).1.length = days.toNat ∧
    (get_exchange_rates fetch days currencies).2 =
      .ok ((((List.range days.toNat).map vof).filter keepB).map
             (fun d => processPure d currencies),
           (((List.range days.toNat).map vof).filter (fun d => !keepB d)).map
             warnOf) := by
  have hcond : ¬(days < 1 ∨ days > 10) := by omega
  have hmain := get_exchange_rates_ok fetch days currencies vof h1 h2 hf hw
  refine ⟨?_, ?_, ?_⟩
  · intro g
    rw [get_exchange_rates, if_neg hcond]
  · rw [hmain]
    simp
  · rw [hmain]

/-- C7 witness: three days, every fetch returning the round-trip
payload. -/
theorem c7_witness :
    (∀ g : Nat → Except PyExn PyVal,
        (get_exchange_rates g 3 ["USD"]).1 = List.range 3) ∧
    (get_exchange_rates (fun _ => .ok samplePayload) 3 ["USD"]).1.length = 3 ∧
    (get_exchange_rates (fun _ => .ok samplePayload) 3 ["USD"]).2 =
      .ok ((((List.range 3).map (fun _ => samplePayload)).filter keepB).map
             (fun d => processPure d ["USD"]),
           (((List.range 3).map (fun _ => samplePayload)).filter
             (fun d => !keepB d)).map warnOf) :=
  c7_dispatch_count_and_order (fun _ => .ok samplePayload) 3 ["USD"]
    (fun _ => samplePayload) (by decide) (by decide)
    (fun _ _ => rfl) (fun _ _ => rfl)

/-- C6: when one of the fetched payloads is empty (fails the line-73
filter) and the batch is otherwise well-shaped, the result contains no
table for it — the tables are exactly those of the kept payloads, so
their count equals the number of payloads with rate data — and the
warning list has exactly one entry per dropped payload, including one
referencing the empty payload's date value (or the unknown-date marker). -/
theorem c6_empty_payload_excluded_and_warned (fetch : Nat → Except PyExn PyVal)
    (days : Int) (currencies : List String) (vof : Nat → PyVal) (j : Nat)
    (h1 : 1 ≤ days) (h2 : days ≤ 10)
    (hf : ∀ i < days.toNat, fetch i = .ok (vof i))
    (hw : ∀ i < days.toNat, wfPayload (vof i) = true)
    (hj : j < days.toNat) (hempty : keepB (vof j) = false) :
    ∃ res warns,
      (get_exchange_rates fetch days currencies).2 = .ok (res, warns) ∧
      res = (((List.range days.toNat).map vof).filter keepB).map
              (fun d => processPure d currencies) ∧
      res.length = ((List.range days.toNat).map vof).countP keepB ∧
      warns.length = ((List.range days.toNat).map vof).countP (fun d => !keepB d) ∧
      warnOf (vof j) ∈ warns := by
  have hmain := get_exchange_rates_ok fetch days currencies vof h1 h2 hf hw
  refine ⟨_, _, by rw [hmain], rfl, ?_, ?_, ?_⟩
  · simp [List.countP_eq_length_filter]
  · simp [List.countP_eq_length_filter]
  · refine List.mem_map_of_mem warnOf ?_
    refine List.mem_filter.mpr ⟨?_, by simp [hempty]⟩
    exact List.mem_map_of_mem vof (List.mem_range.mpr hj)

/-- C6 witness: two days, both payloads well-formed with an empty
exchangeRate list; no table is produced and two warnings carry the
payload date. -/
theorem c6_witness :
    ∃ res warns,
      (get_exchange_rates (fun _ => .ok emptyRatesPayload) 2 ["USD"]).2 =
        .ok (res, warns) ∧
      res = (((List.range 2).map (fun _ => emptyRatesPayload)).filter keepB).map
              (fun d => processPure d ["USD"]) ∧
      res.length = ((List.range 2).map (fun _ => emptyRatesPayload)).countP keepB ∧
      warns.length = ((List.range 2).map (fun _ => emptyRatesPayload)).countP
                       (fun d => !keepB d) ∧
      warnOf emptyRatesPayload ∈ warns :=
  c6_empty_payload_excluded_and_warned (fun _ => .ok emptyRatesPayload) 2 ["USD"]
    (fun _ => emptyRatesPayload) 0 (by decide) (by decide)
    (fun _ _ => rfl) (fun _ _ => rfl) (by decide) rfl
